import Mathlib

/-!
Verification of the quark zero-copy stream library
(`include/quark/io/zero_copy_stream.h`).

Shallow embedding conventions:
* A memory byte (C++ `uint8_t`) is a `Nat`; stream contents are `List Nat`
  whose elements are below 256 (theorems carry this bound explicitly where a
  value-level statement needs it).
* C++ `uint32_t`/`uint64_t` arithmetic is `Nat` arithmetic with an explicit
  `% 2 ^ 32` / `% 2 ^ 64` exactly where the C++ computation can overflow its
  width (the varint accumulation shifts); elsewhere the C++ expressions cannot
  wrap for in-range inputs and are translated verbatim.
* A function that returns `bool` (false = decode failure) is modelled with
  `Outcome`, which additionally distinguishes a thrown `std::runtime_error` /
  undefined behaviour (`crash`) and exhaustion of loop fuel (`diverge`, which
  over-approximates a non-terminating C++ loop).
* `std::vector` indexing out of bounds and pointer arithmetic below a buffer
  are undefined behaviour and map to `crash`.
-/

/-- Result of running one of the C++ stream operations:
`ok` = function returned `true` with a value, `fail` = function returned
`false`, `crash` = a `std::runtime_error` was thrown or undefined behaviour
was reached, `diverge` = the modelling fuel ran out (the C++ loop did not
terminate within the given number of iterations). -/
inductive Outcome (α : Type) where
  | diverge : Outcome α
  | crash : Outcome α
  | fail : Outcome α
  | ok : α → Outcome α
deriving DecidableEq, Repr

/-- An abstract `ZeroCopyInputStream` backend: `next` models
`bool Next(const uint8_t** block, size_t* size)` (`none` = returned `false`,
otherwise the exposed block and the successor state), and `backUp` models
`void BackUp(size_t count)` (`none` = the backend threw
`std::runtime_error("BackUp out of range")`). -/
structure StreamModel (σ : Type) where
  next : σ → Option (List Nat × σ)
  backUp : σ → Nat → Option σ

/-- State of `BufferInputStream`: `data_` (the caller's buffer contents),
`pos_` and `last_returned_`.  `size_` is `data.length`. -/
structure BIS where
  data : List Nat
  pos : Nat
  lastReturned : Nat
deriving DecidableEq, Repr

/-- `BufferInputStream::BufferInputStream(data, size)`: `pos_ = 0`,
`last_returned_ = 0`. -/
def BIS.init (bs : List Nat) : BIS := ⟨bs, 0, 0⟩

/-- `BufferInputStream::Next`: if `pos_ >= size_` return false, else expose
the whole remaining buffer and advance `pos_` to the end. -/
def bisNext (s : BIS) : Option (List Nat × BIS) :=
  if s.data.length ≤ s.pos then none
  else
    some (s.data.drop s.pos,
      { s with pos := s.data.length, lastReturned := s.data.length - s.pos })

/-- `BufferInputStream::BackUp`: throws when `count > last_returned_`,
otherwise rewinds `pos_` and shrinks `last_returned_`. -/
def bisBackUp (s : BIS) (count : Nat) : Option BIS :=
  if s.lastReturned < count then none
  else some { s with pos := s.pos - count, lastReturned := s.lastReturned - count }

/-- The `StreamModel` packaging of `BufferInputStream`. -/
def bisModel : StreamModel BIS := ⟨bisNext, bisBackUp⟩

/-- State of `MultiBufferInputStream`: the chunk list (each chunk carried by
its byte contents), `idx_`, `backed_up_`, `last_size_` and `total_`. -/
structure MBState where
  chunks : List (List Nat)
  idx : Nat
  backedUp : Nat
  lastSize : Nat
  total : Int
deriving DecidableEq, Repr

/-- `MultiBufferInputStream::MultiBufferInputStream(chunks)`. -/
def MBState.init (cs : List (List Nat)) : MBState := ⟨cs, 0, 0, 0, 0⟩

/-- `MultiBufferInputStream::Next`.  When `backed_up_ > 0` the C++ code reads
`chunks_[idx_ - 1]`; `idx_` is a `size_t`, so for `idx_ = 0` the subtraction
wraps and the vector access is out of bounds (undefined behaviour → `crash`).
Likewise `c.data + c.size - backed_up_` underflows the chunk when
`backed_up_ > c.size` (→ `crash`). -/
def mbNext (s : MBState) : Outcome (List Nat × MBState) :=
  if 0 < s.backedUp then
    if s.idx = 0 then .crash
    else
      match s.chunks.get? (s.idx - 1) with
      | none => .crash
      | some c =>
        if c.length < s.backedUp then .crash
        else
          .ok (c.drop (c.length - s.backedUp),
            { s with total := s.total + s.backedUp, lastSize := s.backedUp,
                     backedUp := 0 })
  else if s.chunks.length ≤ s.idx then .fail
  else
    match s.chunks.get? s.idx with
    | none => .crash
    | some c =>
      .ok (c, { s with idx := s.idx + 1, total := s.total + c.length,
                       lastSize := c.length })

/-- `MultiBufferInputStream::BackUp`: throws when `count > last_size_`;
otherwise records the backup and, when the whole last block is returned,
decrements `idx_`. -/
def mbBackUp (s : MBState) (count : Nat) : Option MBState :=
  if s.lastSize < count then none
  else
    some { s with
      total := s.total - count
      backedUp := count
      idx := if count = s.lastSize ∧ 0 < s.idx then s.idx - 1 else s.idx
      lastSize := s.lastSize - count }

/-- State of `BufferOutputStream`: the caller buffer contents `buf` (its
length is the fixed `size_`), `pos_` and `last_provided_`.  The `total_`
member is left uninitialised by the constructor and is never observable
(`ByteCount` returns `pos_`), so it is omitted. -/
structure BOS where
  buf : List Nat
  pos : Nat
  lastProvided : Nat
deriving DecidableEq, Repr

/-- A fresh `BufferOutputStream` over a caller buffer with the given
contents. -/
def BOS.init (bs : List Nat) : BOS := ⟨bs, 0, 0⟩

/-- `BufferOutputStream::Next`: exposes the whole remaining buffer as one
writable block.  Returns the block's offset and length together with the
updated state. -/
def bosNext (s : BOS) : Option ((Nat × Nat) × BOS) :=
  if s.buf.length ≤ s.pos then none
  else
    some ((s.pos, s.buf.length - s.pos),
      { s with pos := s.buf.length, lastProvided := s.buf.length - s.pos })

/-- `BufferOutputStream::BackUp`: throws when `count > last_provided_`. -/
def bosBackUp (s : BOS) (count : Nat) : Option BOS :=
  if s.lastProvided < count then none
  else some { s with pos := s.pos - count, lastProvided := s.lastProvided - count }

/-- `memcpy(data_ + off, src, src.length)` into a `BufferOutputStream`
buffer. -/
def bosWriteAt (buf : List Nat) (off : Nat) (src : List Nat) : List Nat :=
  buf.take off ++ src ++ buf.drop (off + src.length)

/-- State of `VectorOutputStream`.  Only the cursor bookkeeping is modelled
(`block_size_`, `size_`, `last_provided_`, `total_`); the properties proved
about this backend concern `Next`/`BackUp` bookkeeping only, never the byte
contents of `buf_`. -/
structure VOS where
  blockSize : Nat
  size : Nat
  lastProvided : Nat
  total : Int
deriving DecidableEq, Repr

/-- `VectorOutputStream::VectorOutputStream(block_size)`:
`block_size_ = max 64 block_size`. -/
def VOS.init (blockSize : Nat) : VOS := ⟨max 64 blockSize, 0, 0, 0⟩

/-- `VectorOutputStream::Next`: always succeeds, handing out a block of
exactly `block_size_` bytes. -/
def vosNext (s : VOS) : Nat × VOS :=
  (s.blockSize,
    { s with size := s.size + s.blockSize, lastProvided := s.blockSize,
             total := s.total + s.blockSize })

/-- `VectorOutputStream::BackUp`: throws when `count > last_provided_`. -/
def vosBackUp (s : VOS) (count : Nat) : Option VOS :=
  if s.lastProvided < count then none
  else
    some { s with size := s.size - count, lastProvided := s.lastProvided - count,
                  total := s.total - count }

/-- `kMaxVarint32Bytes`. -/
def kMaxVarint32Bytes : Nat := 5

/-- `kMaxVarint64Bytes`. -/
def kMaxVarint64Bytes : Nat := 10

/-- The byte list built in `tmp` by `WriteVarint32`'s loop: while
`varint >= 0x80` emit `(uint8_t)(varint | 0x80)` and shift right by 7, then
emit the final byte. -/
def encodeVarint32 (n : Nat) : List Nat :=
  if _h : n < 0x80 then [n]
  else ((n ||| 0x80) % 256) :: encodeVarint32 (n >>> 7)
termination_by n
decreasing_by
  simp only [Nat.shiftRight_eq_div_pow]
  exact Nat.div_lt_self (by omega) (by norm_num)

/-- The byte list built in `tmp` by `WriteVarint64`'s loop (same body as the
32-bit writer, on a 64-bit operand). -/
def encodeVarint64 (n : Nat) : List Nat :=
  if _h : n < 0x80 then [n]
  else ((n ||| 0x80) % 256) :: encodeVarint64 (n >>> 7)
termination_by n
decreasing_by
  simp only [Nat.shiftRight_eq_div_pow]
  exact Nat.div_lt_self (by omega) (by norm_num)

/-- `ReadRaw`'s loop, one fuel unit per iteration: fetch a block; if it is
larger than what remains to be copied, copy the prefix and back up the tail,
otherwise copy the whole block and continue. -/
def readRawGo {σ : Type} (M : StreamModel σ) :
    Nat → Nat → σ → Outcome (List Nat × σ)
  | 0, _, _ => .diverge
  | fuel + 1, remaining, s =>
    if remaining = 0 then .ok ([], s)
    else
      match M.next s with
      | none => .fail
      | some (b, s') =>
        if remaining < b.length then
          match M.backUp s' (b.length - remaining) with
          | none => .crash
          | some s'' => .ok (b.take remaining, s'')
        else
          match readRawGo M fuel (remaining - b.length) s' with
          | .diverge => .diverge
          | .crash => .crash
          | .fail => .fail
          | .ok (rest, sf) => .ok (b ++ rest, sf)

/-- `bool ReadRaw(void* buffer, size_t size)` on an abstract backend,
returning the bytes copied into `buffer`. -/
def readRaw {σ : Type} (M : StreamModel σ) (fuel size : Nat) (s : σ) :
    Outcome (List Nat × σ) :=
  readRawGo M fuel size s

/-- `ReadVarint32`'s `while (shift < 35)` loop, one fuel unit per iteration.
`cur` is the unread tail of the current block (`ptr == nullptr` / exhausted
block is `[]`).  A zero-length block triggers the `continue`.  The
accumulation `out_val |= (uint32_t)(byte & 0x7F) << shift` is 32-bit
arithmetic, hence the `% 2 ^ 32`.  On a terminating byte the code calls
`BackUp(data + size - ptr)`, i.e. backs up the unread tail of the current
block. -/
def readVarint32Go {σ : Type} (M : StreamModel σ) :
    Nat → Nat → Nat → List Nat → σ → Outcome (Nat × σ)
  | 0, _, _, _, _ => .diverge
  | fuel + 1, shift, acc, cur, s =>
    if 35 ≤ shift then .fail
    else
      match cur with
      | [] =>
        match M.next s with
        | none => .fail
        | some ([], s') => readVarint32Go M fuel shift acc [] s'
        | some (c :: rest, s') =>
          let acc' := acc ||| ((c &&& 0x7F) <<< shift) % 2 ^ 32
          if c &&& 0x80 = 0 then
            match M.backUp s' rest.length with
            | none => .crash
            | some s'' => .ok (acc', s'')
          else readVarint32Go M fuel (shift + 7) acc' rest s'
      | c :: rest =>
        let acc' := acc ||| ((c &&& 0x7F) <<< shift) % 2 ^ 32
        if c &&& 0x80 = 0 then
          match M.backUp s rest.length with
          | none => .crash
          | some s'' => .ok (acc', s'')
        else readVarint32Go M fuel (shift + 7) acc' rest s

/-- `bool ReadVarint32(ZeroCopyInputStream* in, uint32_t& out_val)`. -/
def readVarint32 {σ : Type} (M : StreamModel σ) (fuel : Nat) (s : σ) :
    Outcome (Nat × σ) :=
  readVarint32Go M fuel 0 0 [] s

/-- `ReadVarint64`'s `while (shift < 70)` loop; 64-bit accumulation. -/
def readVarint64Go {σ : Type} (M : StreamModel σ) :
    Nat → Nat → Nat → List Nat → σ → Outcome (Nat × σ)
  | 0, _, _, _, _ => .diverge
  | fuel + 1, shift, acc, cur, s =>
    if 70 ≤ shift then .fail
    else
      match cur with
      | [] =>
        match M.next s with
        | none => .fail
        | some ([], s') => readVarint64Go M fuel shift acc [] s'
        | some (c :: rest, s') =>
          let acc' := acc ||| ((c &&& 0x7F) <<< shift) % 2 ^ 64
          if c &&& 0x80 = 0 then
            match M.backUp s' rest.length with
            | none => .crash
            | some s'' => .ok (acc', s'')
          else readVarint64Go M fuel (shift + 7) acc' rest s'
      | c :: rest =>
        let acc' := acc ||| ((c &&& 0x7F) <<< shift) % 2 ^ 64
        if c &&& 0x80 = 0 then
          match M.backUp s rest.length with
          | none => .crash
          | some s'' => .ok (acc', s'')
        else readVarint64Go M fuel (shift + 7) acc' rest s

/-- `bool ReadVarint64(ZeroCopyInputStream* in, uint64_t& out_val)`. -/
def readVarint64 {σ : Type} (M : StreamModel σ) (fuel : Nat) (s : σ) :
    Outcome (Nat × σ) :=
  readVarint64Go M fuel 0 0 [] s

/-- The bytes written by `WriteFixed32`: the four little-endian bytes of a
32-bit value (`static_cast<uint8_t>(v >> 8k)`). -/
def fixed32Bytes (v : Nat) : List Nat :=
  [v % 256, v >>> 8 % 256, v >>> 16 % 256, v >>> 24 % 256]

/-- The bytes written by `WriteFixed64`. -/
def fixed64Bytes (v : Nat) : List Nat :=
  [v % 256, v >>> 8 % 256, v >>> 16 % 256, v >>> 24 % 256,
   v >>> 32 % 256, v >>> 40 % 256, v >>> 48 % 256, v >>> 56 % 256]

/-- The value assembled by `ReadFixed32` from the first four bytes of a
block: `v = ptr[0] | ptr[1] << 8 | ptr[2] << 16 | ptr[3] << 24` (no 32-bit
wrap is possible for byte-valued inputs). -/
def le32 (b : List Nat) : Nat :=
  b.getD 0 0 ||| b.getD 1 0 <<< 8 ||| b.getD 2 0 <<< 16 ||| b.getD 3 0 <<< 24

/-- The value assembled by `ReadFixed64` from the first eight bytes of a
block. -/
def le64 (b : List Nat) : Nat :=
  b.getD 0 0 ||| b.getD 1 0 <<< 8 ||| b.getD 2 0 <<< 16 ||| b.getD 3 0 <<< 24 |||
  b.getD 4 0 <<< 32 ||| b.getD 5 0 <<< 40 ||| b.getD 6 0 <<< 48 ||| b.getD 7 0 <<< 56

/-- `bool ReadFixed32(ZeroCopyInputStream* in, uint32_t& v)`.  When `Next`
itself fails the C++ code goes on to test the uninitialised local `n`
(undefined behaviour), modelled as `crash`.  When the exposed block is
shorter than 4 bytes the block is backed up (if non-empty) and the read
fails; otherwise the unused tail beyond 4 bytes is backed up. -/
def readFixed32 {σ : Type} (M : StreamModel σ) (s : σ) : Outcome (Nat × σ) :=
  match M.next s with
  | none => .crash
  | some (b, s') =>
    if b.length < 4 then
      if 0 < b.length then
        match M.backUp s' b.length with
        | none => .crash
        | some _ => .fail
      else .fail
    else
      if 4 < b.length then
        match M.backUp s' (b.length - 4) with
        | none => .crash
        | some s'' => .ok (le32 b, s'')
      else .ok (le32 b, s')

/-- `bool ReadFixed64(ZeroCopyInputStream* in, uint64_t& v)`; same structure
as the 32-bit reader with width 8. -/
def readFixed64 {σ : Type} (M : StreamModel σ) (s : σ) : Outcome (Nat × σ) :=
  match M.next s with
  | none => .crash
  | some (b, s') =>
    if b.length < 8 then
      if 0 < b.length then
        match M.backUp s' b.length with
        | none => .crash
        | some _ => .fail
      else .fail
    else
      if 8 < b.length then
        match M.backUp s' (b.length - 8) with
        | none => .crash
        | some s'' => .ok (le64 b, s'')
      else .ok (le64 b, s')

/-- `ReadLengthDelimitedBytes`: decode the varint length, call `Next`, and
either return a borrowed view into the block (backing up the unused tail,
`Bool` component `false`) or materialise an owned buffer by `ReadRaw`
(`Bool` component `true`).  Note the C++ code performs no `BackUp` before the
`ReadRaw` fallback. -/
def readLengthDelimitedBytes {σ : Type} (M : StreamModel σ) (fuel : Nat)
    (s : σ) : Outcome (List Nat × Bool × σ) :=
  match readVarint32 M fuel s with
  | .diverge => .diverge
  | .crash => .crash
  | .fail => .fail
  | .ok (length, s₁) =>
    match M.next s₁ with
    | none => .fail
    | some (b, s₂) =>
      if length ≤ b.length then
        match M.backUp s₂ (b.length - length) with
        | none => .crash
        | some s₃ => .ok (b.take length, false, s₃)
      else
        match readRaw M fuel length s₂ with
        | .diverge => .diverge
        | .crash => .crash
        | .fail => .fail
        | .ok (bytes, s₃) => .ok (bytes, true, s₃)

/-- `WriteRaw`'s loop specialised to `BufferOutputStream`, one fuel unit per
iteration: fetch a writable block; if it is larger than the remaining source,
copy the source and back up the surplus, otherwise fill the block and
continue with the rest of the source.  (`none` = the function returned
`false`; the loop consumes at least one source byte per full iteration, so
fuel `src.length + 1` is always sufficient.) -/
def writeRawBOSGo : Nat → BOS → List Nat → Option BOS
  | 0, _, _ => none
  | fuel + 1, s, src =>
    if src = [] then some s
    else
      match bosNext s with
      | none => none
      | some ((off, n), s') =>
        if src.length < n then
          bosBackUp { s' with buf := bosWriteAt s'.buf off src } (n - src.length)
        else
          writeRawBOSGo fuel
            { s' with buf := bosWriteAt s'.buf off (src.take n) } (src.drop n)

/-- `bool WriteRaw(const void* src, size_t size)` on a
`BufferOutputStream`. -/
def writeRawBOS (s : BOS) (src : List Nat) : Option BOS :=
  writeRawBOSGo (src.length + 1) s src

/-- `bool WriteVarint32(ZeroCopyOutputStream* out, uint32_t varint)` on a
`BufferOutputStream`: write the `tmp` buffer built by the encoding loop. -/
def writeVarint32BOS (s : BOS) (n : Nat) : Option BOS :=
  writeRawBOS s (encodeVarint32 n)

/-- `bool WriteVarint64(ZeroCopyOutputStream* out, uint64_t varint)` on a
`BufferOutputStream`. -/
def writeVarint64BOS (s : BOS) (n : Nat) : Option BOS :=
  writeRawBOS s (encodeVarint64 n)

/-- `bool WriteFixed32(ZeroCopyOutputStream* out, uint32_t v)` on a
`BufferOutputStream`. -/
def writeFixed32BOS (s : BOS) (v : Nat) : Option BOS :=
  writeRawBOS s (fixed32Bytes v)

/-- The `Type` enum of the serialization API (`Type` is reserved in Lean, so
the tags are plain constants): `INT32 = 1`. -/
def tagINT32 : Nat := 1

/-- `Type::FLOAT32 = 2`. -/
def tagFLOAT32 : Nat := 2

/-- `Type::STRING = 3`. -/
def tagSTRING : Nat := 3

/-- `static_cast<uint32_t>(value)` for a C++ `int32_t`. -/
def toU32 (v : Int) : Nat := (v % 2 ^ 32).toNat

/-- `static_cast<int32_t>(tmp)` for a C++ `uint32_t` (C++20
modular/two's-complement semantics). -/
def toI32 (u : Nat) : Int :=
  if u < 2 ^ 31 then (u : Int) else (u : Int) - 2 ^ 32

/-- `bool SerializeInt32(ZeroCopyOutputStream* out, int32_t value)` on a
`BufferOutputStream`: write the tag byte, then the value as fixed32. -/
def serializeInt32BOS (s : BOS) (v : Int) : Option BOS :=
  match writeRawBOS s [tagINT32] with
  | none => none
  | some s₁ => writeFixed32BOS s₁ (toU32 v)

/-- `bool SerializeFloat32(ZeroCopyOutputStream* out, float value)` on a
`BufferOutputStream`.  The C++ code `memcpy`s the float into a `uint32_t`
and writes those bits; a `float` is represented here by its 32-bit IEEE-754
bit pattern (the code never does floating-point arithmetic), so NaN and
infinity payloads are carried exactly. -/
def serializeFloat32BOS (s : BOS) (bits : Nat) : Option BOS :=
  match writeRawBOS s [tagFLOAT32] with
  | none => none
  | some s₁ => writeFixed32BOS s₁ bits

/-- `bool SerializeString(ZeroCopyOutputStream* out, const std::string&
str)` on a `BufferOutputStream`: tag byte, varint32 length
(`static_cast<uint32_t>(str.size())`), then the raw bytes. -/
def serializeStringBOS (s : BOS) (str : List Nat) : Option BOS :=
  match writeRawBOS s [tagSTRING] with
  | none => none
  | some s₁ =>
    match writeVarint32BOS s₁ (str.length % 2 ^ 32) with
    | none => none
    | some s₂ => writeRawBOS s₂ str

/-- `bool DeserializeInt32(ZeroCopyInputStream* in, int32_t& value)`:
read one tag byte via `ReadRaw`, fail if it is not `Type::INT32`, then read
the fixed32 payload and cast it to `int32_t`. -/
def deserializeInt32 {σ : Type} (M : StreamModel σ) (fuel : Nat) (s : σ) :
    Outcome (Int × σ) :=
  match readRaw M fuel 1 s with
  | .diverge => .diverge
  | .crash => .crash
  | .fail => .fail
  | .ok (tagBytes, s₁) =>
    if tagBytes.getD 0 0 ≠ tagINT32 then .fail
    else
      match readFixed32 M s₁ with
      | .diverge => .diverge
      | .crash => .crash
      | .fail => .fail
      | .ok (tmp, s₂) => .ok (toI32 tmp, s₂)

/-- `bool DeserializeFloat32(ZeroCopyInputStream* in, float& value)`:
tag check against `Type::FLOAT32`, then the fixed32 bit pattern is `memcpy`d
into the float (identity on the bit pattern). -/
def deserializeFloat32 {σ : Type} (M : StreamModel σ) (fuel : Nat) (s : σ) :
    Outcome (Nat × σ) :=
  match readRaw M fuel 1 s with
  | .diverge => .diverge
  | .crash => .crash
  | .fail => .fail
  | .ok (tagBytes, s₁) =>
    if tagBytes.getD 0 0 ≠ tagFLOAT32 then .fail
    else
      match readFixed32 M s₁ with
      | .diverge => .diverge
      | .crash => .crash
      | .fail => .fail
      | .ok (bits, s₂) => .ok (bits, s₂)

/-- `bool DeserializeString(...)`: delegates directly to
`ReadLengthDelimitedBytes` — the C++ function reads no tag byte.  Both the
borrowed-view and the owned-buffer branch expose exactly the bytes returned
by the length-delimited reader (through `str_view` resp. `str`), so the
result is those bytes. -/
def deserializeString {σ : Type} (M : StreamModel σ) (fuel : Nat) (s : σ) :
    Outcome (List Nat × σ) :=
  match readLengthDelimitedBytes M fuel s with
  | .diverge => .diverge
  | .crash => .crash
  | .fail => .fail
  | .ok (bytes, _, s') => .ok (bytes, s')

/-- Spec-side vocabulary: the bit length of an unsigned integer
(`bitlength(0) = 0`). -/
def bitLen (n : Nat) : Nat := if n = 0 then 0 else Nat.log2 n + 1

/-- Spec-side vocabulary: the mathematical base-128 value declared by a
varint byte sequence (LSB-first, 7 data bits per byte), before any width
truncation. -/
def varintValue : List Nat → Nat
  | [] => 0
  | b :: rest => b % 128 + 128 * varintValue rest

/-- The spec's backend precondition: `Next` never returns `ok = true`
together with a zero-length block. -/
def NoEmptyBlocks {σ : Type} (M : StreamModel σ) : Prop :=
  ∀ s b s', M.next s = some (b, s') → b ≠ []

/-- Backend well-formedness: backing up at most the length of the block just
returned by `Next` never throws. -/
def BackUpTotal {σ : Type} (M : StreamModel σ) : Prop :=
  ∀ s b s', M.next s = some (b, s') →
    ∀ k, k ≤ b.length → (M.backUp s' k).isSome

/-- Disjoint-bits bitwise-or is addition: when `a` occupies only bits below
`s`, or-ing in a multiple of `2 ^ s` is the same as adding it. -/
theorem lor_two_pow_mul {s : Nat} (a c : Nat) (h : a < 2 ^ s) :
    a ||| 2 ^ s * c = a + 2 ^ s * c := by
  apply Nat.eq_of_testBit_eq
  intro i
  rw [Nat.testBit_lor]
  rcases lt_or_le i s with hi | hi
  · have hsplit : 2 ^ s * c = 2 ^ i * (2 ^ (s - i) * c) := by
      rw [← Nat.mul_assoc, ← pow_add]
      congr 2
      omega
    have h2i : 0 < 2 ^ i := Nat.pos_pow_of_pos i (by norm_num)
    have hdiv1 : (a + 2 ^ s * c) / 2 ^ i = a / 2 ^ i + 2 ^ (s - i) * c := by
      rw [hsplit, Nat.add_mul_div_left _ _ h2i]
    have hdiv2 : (2 ^ s * c) / 2 ^ i = 2 ^ (s - i) * c := by
      rw [hsplit, Nat.mul_div_cancel_left _ h2i]
    have hpow : (2 : Nat) ^ (s - i) = 2 * 2 ^ (s - i - 1) := by
      rw [← pow_succ']
      congr 1
      omega
    have heven : (2 ^ (s - i) * c) % 2 = 0 := by
      rw [hpow, Nat.mul_assoc]
      exact Nat.mul_mod_right 2 _
    simp only [Nat.testBit_to_div_mod, hdiv1, hdiv2]
    have h1 : (a / 2 ^ i + 2 ^ (s - i) * c) % 2 = a / 2 ^ i % 2 := by omega
    rw [h1, heven]
    simp
  · have ha : a.testBit i = false :=
      Nat.testBit_eq_false_of_lt (lt_of_lt_of_le h (Nat.pow_le_pow_right (by norm_num) hi))
    rw [ha, Bool.false_or]
    have hsplit : (2 : Nat) ^ i = 2 ^ s * 2 ^ (i - s) := by
      rw [← pow_add]
      congr 1
      omega
    have h2s : 0 < 2 ^ s := Nat.pos_pow_of_pos s (by norm_num)
    have hdiv1 : (a + 2 ^ s * c) / 2 ^ i = c / 2 ^ (i - s) := by
      rw [hsplit, ← Nat.div_div_eq_div_mul, Nat.add_mul_div_left _ _ h2s,
        Nat.div_eq_of_lt h, Nat.zero_add]
    have hdiv2 : (2 ^ s * c) / 2 ^ i = c / 2 ^ (i - s) := by
      rw [hsplit, ← Nat.div_div_eq_div_mul, Nat.mul_div_cancel_left _ h2s]
    simp only [Nat.testBit_to_div_mod, hdiv1, hdiv2]

/-- The shifted form of `lor_two_pow_mul`, matching the C++ pattern
`acc | (x << s)`. -/
theorem lor_shiftLeft {s : Nat} (a c : Nat) (h : a < 2 ^ s) :
    a ||| c <<< s = a + c * 2 ^ s := by
  rw [Nat.shiftLeft_eq, Nat.mul_comm, lor_two_pow_mul a c h, Nat.mul_comm]

/-- `byte & 0x7F` extracts the low 7 bits. -/
theorem and_0x7F (b : Nat) : b &&& 127 = b % 128 := by
  have h : (127 : Nat) = 2 ^ 7 - 1 := by norm_num
  rw [h, Nat.and_pow_two_sub_one_eq_mod]

/-- For a byte value with the continuation bit set, `byte & 0x80` is
nonzero. -/
theorem and_0x80_of_ge (b : Nat) (h1 : 128 ≤ b) (h2 : b < 256) :
    b &&& 128 = 128 := by
  have hbit : b.testBit 7 = true := by
    rw [Nat.testBit_to_div_mod]
    have h7 : (2 : Nat) ^ 7 = 128 := by norm_num
    have hd : b / 128 = 1 := by omega
    rw [h7, hd]
    decide
  have h128 : (128 : Nat) = 2 ^ 7 := by norm_num
  rw [h128, Nat.and_two_pow, hbit]
  norm_num

/-- For a byte value with the continuation bit clear, `byte & 0x80` is
zero. -/
theorem and_0x80_of_lt (b : Nat) (h : b < 128) : b &&& 128 = 0 := by
  have hbit : b.testBit 7 = false :=
    Nat.testBit_eq_false_of_lt (by norm_num at *; omega)
  have h128 : (128 : Nat) = 2 ^ 7 := by norm_num
  rw [h128, Nat.and_two_pow, hbit]
  norm_num

/-- `BufferInputStream` satisfies the spec's no-empty-block precondition. -/
theorem bisNoEmptyBlocks : NoEmptyBlocks bisModel := by
  intro s b s' h
  simp only [bisModel, bisNext] at h
  split at h
  · exact absurd h (by simp)
  · rename_i hpos
    injection h with h1
    injection h1 with hb hs
    subst hb
    intro hnil
    rw [List.drop_eq_nil_iff] at hnil
    omega

/-- `BufferInputStream.BackUp` never throws for counts within the block just
returned by `Next`. -/
theorem bisBackUpTotal : BackUpTotal bisModel := by
  intro s b s' h k hk
  simp only [bisModel, bisNext] at h
  split at h
  · exact absurd h (by simp)
  · rename_i hpos
    injection h with h1
    injection h1 with hb hs
    subst hb hs
    simp only [bisModel, bisBackUp, List.length_drop] at hk ⊢
    split
    · omega
    · simp

/-- `WriteRaw` of no bytes succeeds without touching the stream. -/
theorem writeRawBOS_nil (s : BOS) : writeRawBOS s [] = some s := rfl

/-- `WriteRaw` into a `BufferOutputStream` with enough remaining room
appends the source bytes at the write position. -/
theorem writeRawBOS_fits (s : BOS) (src : List Nat) (hne : src ≠ [])
    (hfit : s.pos + src.length ≤ s.buf.length) :
    writeRawBOS s src =
      some ⟨bosWriteAt s.buf s.pos src, s.pos + src.length, src.length⟩ := by
  have hpos : ¬ (s.buf.length ≤ s.pos) := by
    have : 1 ≤ src.length := List.length_pos.mpr hne
    omega
  have hsrc1 : 1 ≤ src.length := List.length_pos.mpr hne
  obtain ⟨m, hm⟩ : ∃ m, src.length = m + 1 := ⟨src.length - 1, by omega⟩
  simp only [writeRawBOS, hm]
  simp only [writeRawBOSGo, hne, if_false, bosNext, hpos, if_neg, not_false_iff]
  by_cases hcase : src.length < s.buf.length - s.pos
  · simp only [if_pos hcase, bosBackUp]
    have hc2 : ¬ (s.buf.length - s.pos < s.buf.length - s.pos - src.length) := by
      omega
    rw [if_neg hc2]
    simp only [Option.some.injEq, BOS.mk.injEq, true_and]
    constructor
    · omega
    · omega
  · simp only [if_neg hcase]
    have hn : s.buf.length - s.pos = src.length := by omega
    simp only [hn, List.drop_length, List.take_length, if_pos rfl, if_true]
    simp only [Option.some.injEq, BOS.mk.injEq, true_and]
    constructor
    · omega
    · omega

/-- Reassembling the four little-endian bytes of a 32-bit value restores the
value. -/
theorem le32_fixed32Bytes (u : Nat) (hu : u < 2 ^ 32) :
    le32 (fixed32Bytes u) = u := by
  simp only [le32, fixed32Bytes, List.getD_cons_zero, List.getD_cons_succ,
    Nat.shiftRight_eq_div_pow]
  rw [lor_shiftLeft (u % 256) (u / 2 ^ 8 % 256) (by omega)]
  rw [lor_shiftLeft (u % 256 + u / 2 ^ 8 % 256 * 2 ^ 8) (u / 2 ^ 16 % 256) (by omega)]
  rw [lor_shiftLeft _ (u / 2 ^ 24 % 256) (by omega)]
  omega

/-- The `int32_t → uint32_t → int32_t` cast round trip is the identity on
the `int32_t` range. -/
theorem toI32_toU32 (v : Int) (h1 : -(2 ^ 31) ≤ v) (h2 : v < 2 ^ 31) :
    toI32 (toU32 v) = v := by
  simp only [toI32, toU32]
  split
  · rename_i h
    omega
  · rename_i h
    omega

/-- `WriteFixed32` always emits exactly four bytes. -/
theorem fixed32Bytes_length (u : Nat) : (fixed32Bytes u).length = 4 := rfl

/-- `static_cast<uint32_t>` lands in the `uint32_t` range. -/
theorem toU32_lt (v : Int) : toU32 v < 2 ^ 32 := by
  simp only [toU32]
  omega

/-- Writing a tag byte followed by a fixed32 payload into a fresh five-byte
`BufferOutputStream` fills the buffer with exactly those five bytes. -/
theorem serializeTagFixed32 (tag : Nat) (u : Nat) (buf₀ : List Nat)
    (h5 : buf₀.length = 5) :
    (match writeRawBOS (BOS.init buf₀) [tag] with
     | none => none
     | some s₁ => writeFixed32BOS s₁ u) =
      some ⟨tag :: fixed32Bytes u, 5, 4⟩ := by
  rw [writeRawBOS_fits (BOS.init buf₀) [tag] (by simp) (by simp [BOS.init, h5])]
  simp only [BOS.init, bosWriteAt, List.take_nil, List.length_cons, List.length_nil]
  simp only [writeFixed32BOS]
  rw [writeRawBOS_fits _ (fixed32Bytes u) (by simp [fixed32Bytes])
    (by simp [fixed32Bytes, List.length_drop, h5])]
  simp only [bosWriteAt, fixed32Bytes_length, Option.some.injEq, BOS.mk.injEq]
  refine ⟨?_, trivial, trivial⟩
  norm_num
  simp [List.drop_drop, List.drop_eq_nil_iff, h5]

/-- Decoding `[tag INT32, 4-byte little-endian payload]` from a
`BufferInputStream` recovers the 32-bit value. -/
theorem deserializeInt32_rt (u : Nat) (hu : u < 2 ^ 32) :
    deserializeInt32 bisModel 2 (BIS.init (tagINT32 :: fixed32Bytes u)) =
      .ok (toI32 u, ⟨tagINT32 :: fixed32Bytes u, 5, 4⟩) := by
  simp only [deserializeInt32, readRaw, readRawGo, bisModel, bisNext, bisBackUp,
    BIS.init, fixed32Bytes, readFixed32, tagINT32, le32]
  norm_num
  have h := le32_fixed32Bytes u hu
  simp only [le32, fixed32Bytes, List.getD_cons_zero, List.getD_cons_succ] at h
  rw [h]

/-- Decoding `[tag FLOAT32, 4-byte little-endian bit pattern]` from a
`BufferInputStream` recovers the exact bit pattern. -/
theorem deserializeFloat32_rt (u : Nat) (hu : u < 2 ^ 32) :
    deserializeFloat32 bisModel 2 (BIS.init (tagFLOAT32 :: fixed32Bytes u)) =
      .ok (u, ⟨tagFLOAT32 :: fixed32Bytes u, 5, 4⟩) := by
  simp only [deserializeFloat32, readRaw, readRawGo, bisModel, bisNext, bisBackUp,
    BIS.init, fixed32Bytes, readFixed32, tagFLOAT32, le32]
  norm_num
  have h := le32_fixed32Bytes u hu
  simp only [le32, fixed32Bytes, List.getD_cons_zero, List.getD_cons_succ] at h
  rw [h]

/-- Claim C4: for every `int32` value `v`, `DeserializeInt32` applied to the
bytes produced by `SerializeInt32(v)` succeeds and returns `v`; encoding 42
produces exactly the bytes `01 2A 00 00 00` and decoding them yields 42; and
for every `float` (represented by its 32-bit IEEE-754 bit pattern, which is
all the code ever touches, so NaN and ±∞ are included), `DeserializeFloat32`
applied to the bytes of `SerializeFloat32(f)` returns the identical bit
pattern. -/
theorem C4_tlv_fixed_roundtrip :
    (∀ v : Int, -(2 ^ 31) ≤ v → v < 2 ^ 31 → ∀ buf₀ : List Nat, buf₀.length = 5 →
      serializeInt32BOS (BOS.init buf₀) v =
        some ⟨tagINT32 :: fixed32Bytes (toU32 v), 5, 4⟩ ∧
      deserializeInt32 bisModel 2 (BIS.init (tagINT32 :: fixed32Bytes (toU32 v))) =
        .ok (v, ⟨tagINT32 :: fixed32Bytes (toU32 v), 5, 4⟩)) ∧
    serializeInt32BOS (BOS.init [0, 0, 0, 0, 0]) 42 =
      some ⟨[1, 42, 0, 0, 0], 5, 4⟩ ∧
    deserializeInt32 bisModel 2 (BIS.init [1, 42, 0, 0, 0]) =
      .ok (42, ⟨[1, 42, 0, 0, 0], 5, 4⟩) ∧
    (∀ bits : Nat, bits < 2 ^ 32 → ∀ buf₀ : List Nat, buf₀.length = 5 →
      serializeFloat32BOS (BOS.init buf₀) bits =
        some ⟨tagFLOAT32 :: fixed32Bytes bits, 5, 4⟩ ∧
      deserializeFloat32 bisModel 2 (BIS.init (tagFLOAT32 :: fixed32Bytes bits)) =
        .ok (bits, ⟨tagFLOAT32 :: fixed32Bytes bits, 5, 4⟩)) := by
  refine ⟨?_, by decide, by decide, ?_⟩
  · intro v hv1 hv2 buf₀ h5
    constructor
    · simp only [serializeInt32BOS]
      exact serializeTagFixed32 tagINT32 (toU32 v) buf₀ h5
    · rw [deserializeInt32_rt (toU32 v) (toU32_lt v), toI32_toU32 v hv1 hv2]
  · intro bits hb buf₀ h5
    constructor
    · simp only [serializeFloat32BOS]
      exact serializeTagFixed32 tagFLOAT32 bits buf₀ h5
    · exact deserializeFloat32_rt bits hb

/-- Claim C4, instantiated: round trip of the `int32` value −7 over a
five-byte buffer, and serialization of the quiet-NaN bit pattern
`0x7FC00000`. -/
theorem C4_tlv_fixed_roundtrip_witness :
    serializeInt32BOS (BOS.init [9, 9, 9, 9, 9]) (-7) =
      some ⟨tagINT32 :: fixed32Bytes (toU32 (-7)), 5, 4⟩ ∧
    deserializeInt32 bisModel 2 (BIS.init (tagINT32 :: fixed32Bytes (toU32 (-7)))) =
      .ok (-7, ⟨tagINT32 :: fixed32Bytes (toU32 (-7)), 5, 4⟩) ∧
    serializeFloat32BOS (BOS.init [9, 9, 9, 9, 9]) 2143289344 =
      some ⟨tagFLOAT32 :: fixed32Bytes 2143289344, 5, 4⟩ :=
  ⟨(C4_tlv_fixed_roundtrip.1 (-7) (by norm_num) (by norm_num) [9, 9, 9, 9, 9]
      (by norm_num)).1,
   (C4_tlv_fixed_roundtrip.1 (-7) (by norm_num) (by norm_num) [9, 9, 9, 9, 9]
      (by norm_num)).2,
   (C4_tlv_fixed_roundtrip.2.2.2 2143289344 (by norm_num) [9, 9, 9, 9, 9]
      (by norm_num)).1⟩

/-- Claim C1 (refuted — evaluation at the failing input): `SerializeString`
encodes `"hi"` as `03 02 68 69`, but `DeserializeString` reads no tag byte
at all: it treats the STRING tag `0x03` as the varint length and returns the
three bytes `02 68 69` (`"\x02hi"`), so the round trip does not yield
`"hi"`. -/
theorem C1_deserializeString_skips_tag :
    serializeStringBOS (BOS.init [0, 0, 0, 0]) [104, 105] =
      some ⟨[3, 2, 104, 105], 4, 2⟩ ∧
    deserializeString bisModel 6 (BIS.init [3, 2, 104, 105]) =
      .ok ([2, 104, 105], ⟨[3, 2, 104, 105], 4, 3⟩) ∧
    ([2, 104, 105] : List Nat) ≠ [104, 105] := by
  refine ⟨?_, by decide, by decide⟩
  have he : encodeVarint32 2 = [2] := by
    rw [encodeVarint32]
    norm_num
  simp [serializeStringBOS, writeVarint32BOS, writeRawBOS, writeRawBOSGo, he,
    encodeVarint32, bosNext, bosBackUp, bosWriteAt, BOS.init, tagSTRING]

/-- Claim C3 (refuted — evaluation at the failing input): after `Next`
serves the first chunk `[10,11,12]` of a two-chunk `MultiBufferInputStream`
and `BackUp(3)` returns it in full, the next `Next` reads
`chunks_[idx_ - 1]` with `idx_ = 0` — a wrapped `size_t` index and an
out-of-bounds `std::vector` access — instead of re-serving the same chunk. -/
theorem C3_full_chunk_backup_oob :
    mbNext (MBState.init [[10, 11, 12], [20, 21]]) =
      .ok ([10, 11, 12], ⟨[[10, 11, 12], [20, 21]], 1, 0, 3, 3⟩) ∧
    mbBackUp ⟨[[10, 11, 12], [20, 21]], 1, 0, 3, 3⟩ 3 =
      some ⟨[[10, 11, 12], [20, 21]], 0, 3, 0, 0⟩ ∧
    mbNext ⟨[[10, 11, 12], [20, 21]], 0, 3, 0, 0⟩ = .crash := by
  refine ⟨by decide, by decide, by decide⟩

/-- Claim C2 (refuted at explicit inputs): feeding the FLOAT32 tag `0x02`
to `DeserializeInt32` and feeding it a 3-byte (truncated) buffer produce the
one and the same observable outcome, the boolean result `false` — the two
failure classes are conflated, not distinguishable. -/
theorem C2_failure_classes_conflated :
    deserializeInt32 bisModel 2 (BIS.init [2, 42, 0, 0, 0]) = .fail ∧
    deserializeInt32 bisModel 2 (BIS.init [1, 42, 0]) = .fail ∧
    deserializeInt32 bisModel 2 (BIS.init [2, 42, 0, 0, 0]) =
      deserializeInt32 bisModel 2 (BIS.init [1, 42, 0]) := by
  refine ⟨by decide, by decide, by decide⟩

/-- Claim C9: after a successfully decoded varint length of 0,
`ReadLengthDelimitedBytes` unconditionally calls `Next()` and fails when the
stream is exhausted, even though zero payload bytes are required. -/
theorem C9_rldb_fails_after_zero_length_at_eos :
    ∀ (σ : Type) (M : StreamModel σ) (fuel : Nat) (s s₁ : σ),
      readVarint32 M fuel s = .ok (0, s₁) →
      M.next s₁ = none →
      readLengthDelimitedBytes M fuel s = .fail := by
  intro σ M fuel s s₁ h1 h2
  simp only [readLengthDelimitedBytes, h1, h2]

/-- Claim C9, instantiated: a buffer holding exactly the single byte `0x00`
(a varint declaring length 0 at the very end of the stream). -/
theorem C9_rldb_fails_after_zero_length_at_eos_witness :
    readVarint32 bisModel 6 (BIS.init [0]) = .ok (0, ⟨[0], 1, 1⟩) ∧
    bisModel.next ⟨[0], 1, 1⟩ = none ∧
    readLengthDelimitedBytes bisModel 6 (BIS.init [0]) = .fail :=
  ⟨by decide, by decide,
   C9_rldb_fails_after_zero_length_at_eos BIS bisModel 6 (BIS.init [0])
     ⟨[0], 1, 1⟩ (by decide) (by decide)⟩

/-- Reading one byte (`ReadRaw(&tag, 1)`) from a fresh non-empty
`BufferInputStream` yields its first byte and backs up the rest. -/
theorem readRaw_one_bis (c : Nat) (rest : List Nat) :
    readRaw bisModel 2 1 (BIS.init (c :: rest)) = .ok ([c], ⟨c :: rest, 1, 1⟩) := by
  cases rest with
  | nil =>
    simp [readRaw, readRawGo, bisModel, bisNext, bisBackUp, BIS.init]
  | cons r rs =>
    simp only [readRaw, readRawGo, bisModel, bisNext, bisBackUp, BIS.init]
    norm_num

/-- Claim C2, amended: `DeserializeInt32` fails on any non-INT32 tag byte
and fails on any 3-byte (truncated) buffer, but both failure classes surface
as the same boolean `false` — the result does not distinguish them. -/
theorem C2_amended_failures_indistinct :
    (∀ (b : Nat) (rest : List Nat), b ≠ tagINT32 →
      deserializeInt32 bisModel 2 (BIS.init (b :: rest)) = .fail) ∧
    (∀ b0 b1 b2 : Nat, deserializeInt32 bisModel 2 (BIS.init [b0, b1, b2]) = .fail) := by
  constructor
  · intro b rest hb
    simp only [deserializeInt32, readRaw_one_bis]
    rw [if_pos]
    simpa using hb
  · intro b0 b1 b2
    by_cases h0 : b0 = tagINT32
    · subst h0
      simp only [deserializeInt32, readRaw_one_bis]
      rw [if_neg (by simp [tagINT32])]
      simp [readFixed32, bisModel, bisNext, bisBackUp]
    · simp only [deserializeInt32, readRaw_one_bis]
      rw [if_pos]
      simpa using h0

/-- Claim C2 (amended), instantiated: the FLOAT32 tag `0x02` followed by an
INT32 payload, and the truncated buffer `01 2A 00`. -/
theorem C2_amended_failures_indistinct_witness :
    deserializeInt32 bisModel 2 (BIS.init [2, 0, 0, 0, 0]) = .fail ∧
    deserializeInt32 bisModel 2 (BIS.init [1, 42, 0]) = .fail :=
  ⟨C2_amended_failures_indistinct.1 2 [0, 0, 0, 0] (by decide),
   C2_amended_failures_indistinct.2 1 42 0⟩

/-- Claim C8: on every backend — `BufferInputStream`,
`MultiBufferInputStream`, `BufferOutputStream`, `VectorOutputStream` —
calling `BackUp(k)` with `k` greater than the length of the block just
returned by `Next()` throws (`none`, the fatal channel, distinct from the
boolean decode-failure channel); the count is never silently clamped. -/
theorem C8_backup_out_of_range_throws :
    (∀ (s : BIS) (b : List Nat) (s' : BIS), bisNext s = some (b, s') →
      ∀ k, b.length < k → bisBackUp s' k = none) ∧
    (∀ (s : MBState) (b : List Nat) (s' : MBState), mbNext s = .ok (b, s') →
      ∀ k, b.length < k → mbBackUp s' k = none) ∧
    (∀ (s : BOS) (off n : Nat) (s' : BOS), bosNext s = some ((off, n), s') →
      ∀ k, n < k → bosBackUp s' k = none) ∧
    (∀ (s : VOS) (n : Nat) (s' : VOS), vosNext s = (n, s') →
      ∀ k, n < k → vosBackUp s' k = none) := by
  refine ⟨?_, ?_, ?_, ?_⟩
  · intro s b s' h k hk
    simp only [bisNext] at h
    split at h
    · exact absurd h (by simp)
    · rename_i hpos
      injection h with h1
      injection h1 with hb hs
      subst hb hs
      simp only [List.length_drop] at hk
      simp only [bisBackUp]
      rw [if_pos (by omega)]
  · intro s b s' h k hk
    simp only [mbNext] at h
    split at h
    · split at h
      · exact absurd h (by simp)
      · split at h
        · exact absurd h (by simp)
        · split at h
          · exact absurd h (by simp)
          · rename_i c hc hlen
            injection h with h1
            injection h1 with hb hs
            subst hb hs
            simp only [List.length_drop] at hk
            simp only [mbBackUp]
            rw [if_pos (by omega)]
    · split at h
      · exact absurd h (by simp)
      · split at h
        · exact absurd h (by simp)
        · rename_i c hc
          injection h with h1
          injection h1 with hb hs
          subst hb hs
          simp only [mbBackUp]
          rw [if_pos (by omega)]
  · intro s off n s' h k hk
    simp only [bosNext] at h
    split at h
    · exact absurd h (by simp)
    · rename_i hpos
      injection h with h1
      injection h1 with hb hs
      injection hb with hoff hn
      subst hn hs
      simp only [bosBackUp]
      rw [if_pos (by omega)]
  · intro s n s' h k hk
    simp only [vosNext] at h
    injection h with hn hs
    subst hn hs
    simp only [vosBackUp]
    rw [if_pos (by omega)]

/-- Claim C8, instantiated on all four backends with a count one larger
than the block just served. -/
theorem C8_backup_out_of_range_throws_witness :
    bisBackUp ⟨[5], 1, 1⟩ 2 = none ∧
    mbBackUp ⟨[[7]], 1, 0, 1, 1⟩ 2 = none ∧
    bosBackUp ⟨[0, 0], 2, 2⟩ 3 = none ∧
    vosBackUp ⟨64, 64, 64, 64⟩ 65 = none :=
  ⟨C8_backup_out_of_range_throws.1 (BIS.init [5]) [5] ⟨[5], 1, 1⟩ (by decide)
      2 (by decide),
   C8_backup_out_of_range_throws.2.1 (MBState.init [[7]]) [7]
      ⟨[[7]], 1, 0, 1, 1⟩ (by decide) 2 (by decide),
   C8_backup_out_of_range_throws.2.2.1 (BOS.init [0, 0]) 0 2 ⟨[0, 0], 2, 2⟩
      (by decide) 3 (by decide),
   C8_backup_out_of_range_throws.2.2.2 (VOS.init 64) 64 ⟨64, 64, 64, 64⟩
      (by decide) 65 (by decide)⟩

/-- Claim C7: on a backend whose `BackUp` accepts every in-bound count,
`ReadFixed32` (resp. `ReadFixed64`) succeeds exactly when the block exposed
by `Next()` holds at least 4 (resp. 8) bytes: a shorter block produces the
ordinary boolean failure (never a crash, never bytes stitched from two
blocks), and on success the unused tail of the block is backed up. -/
theorem C7_fixed_reads_single_block :
    ∀ (σ : Type) (M : StreamModel σ), BackUpTotal M →
    ∀ (s : σ) (b : List Nat) (s' : σ), M.next s = some (b, s') →
      ((b.length < 4 → readFixed32 M s = .fail) ∧
       (b.length = 4 → readFixed32 M s = .ok (le32 b, s')) ∧
       (4 < b.length → ∃ s'', M.backUp s' (b.length - 4) = some s'' ∧
          readFixed32 M s = .ok (le32 b, s''))) ∧
      ((b.length < 8 → readFixed64 M s = .fail) ∧
       (b.length = 8 → readFixed64 M s = .ok (le64 b, s')) ∧
       (8 < b.length → ∃ s'', M.backUp s' (b.length - 8) = some s'' ∧
          readFixed64 M s = .ok (le64 b, s''))) := by
  intro σ M hB s b s' h
  constructor
  · refine ⟨?_, ?_, ?_⟩
    · intro hlt
      simp only [readFixed32, h]
      rw [if_pos hlt]
      by_cases h0 : 0 < b.length
      · rw [if_pos h0]
        obtain ⟨s'', heq⟩ := Option.isSome_iff_exists.mp (hB s b s' h b.length (le_refl _))
        rw [heq]
      · rw [if_neg h0]
    · intro heq4
      simp only [readFixed32, h]
      rw [if_neg (by omega), if_neg (by omega)]
    · intro hgt
      obtain ⟨s'', heq⟩ := Option.isSome_iff_exists.mp (hB s b s' h (b.length - 4) (by omega))
      refine ⟨s'', heq, ?_⟩
      simp only [readFixed32, h]
      rw [if_neg (by omega), if_pos (by omega), heq]
  · refine ⟨?_, ?_, ?_⟩
    · intro hlt
      simp only [readFixed64, h]
      rw [if_pos hlt]
      by_cases h0 : 0 < b.length
      · rw [if_pos h0]
        obtain ⟨s'', heq⟩ := Option.isSome_iff_exists.mp (hB s b s' h b.length (le_refl _))
        rw [heq]
      · rw [if_neg h0]
    · intro heq8
      simp only [readFixed64, h]
      rw [if_neg (by omega), if_neg (by omega)]
    · intro hgt
      obtain ⟨s'', heq⟩ := Option.isSome_iff_exists.mp (hB s b s' h (b.length - 8) (by omega))
      refine ⟨s'', heq, ?_⟩
      simp only [readFixed64, h]
      rw [if_neg (by omega), if_pos (by omega), heq]

/-- Claim C7, instantiated on `BufferInputStream`: a 3-byte block fails the
32-bit read, and a 5-byte block succeeds with the one-byte tail backed
up. -/
theorem C7_fixed_reads_single_block_witness :
    readFixed32 bisModel (BIS.init [1, 2, 3]) = .fail ∧
    readFixed32 bisModel (BIS.init [1, 2, 3, 4, 5]) =
      .ok (le32 [1, 2, 3, 4, 5], ⟨[1, 2, 3, 4, 5], 4, 4⟩) := by
  constructor
  · exact (C7_fixed_reads_single_block BIS bisModel bisBackUpTotal (BIS.init [1, 2, 3])
      [1, 2, 3] ⟨[1, 2, 3], 3, 3⟩ (by decide)).1.1 (by decide)
  · obtain ⟨s'', heq, hok⟩ := (C7_fixed_reads_single_block BIS bisModel bisBackUpTotal
      (BIS.init [1, 2, 3, 4, 5]) [1, 2, 3, 4, 5] ⟨[1, 2, 3, 4, 5], 5, 5⟩
      (by decide)).1.2.2 (by decide)
    have hs : s'' = ⟨[1, 2, 3, 4, 5], 4, 4⟩ := by
      have : bisBackUp ⟨[1, 2, 3, 4, 5], 5, 5⟩ 1 = some ⟨[1, 2, 3, 4, 5], 4, 4⟩ := by decide
      simp only [bisModel] at heq
      norm_num at heq
      rw [this] at heq
      exact (Option.some.inj heq).symm
    rw [← hs]
    exact hok

/-- Under the no-empty-block precondition, the `ReadVarint32` loop never
exhausts 6 iterations' worth of fuel (5 byte-consuming iterations plus the
final guard check). -/
theorem rv32Go_ne_diverge {σ : Type} (M : StreamModel σ) (hNE : NoEmptyBlocks M) :
    ∀ (fuel : Nat) (shift acc : Nat) (cur : List Nat) (s : σ),
      1 ≤ fuel → 35 ≤ shift + 7 * (fuel - 1) →
      readVarint32Go M fuel shift acc cur s ≠ .diverge := by
  intro fuel
  induction fuel with
  | zero => intro shift acc cur s h1 _; omega
  | succ f ih =>
    intro shift acc cur s _ hbound
    simp only [readVarint32Go]
    by_cases h35 : 35 ≤ shift
    · rw [if_pos h35]
      simp
    · rw [if_neg h35]
      have hf1 : 1 ≤ f := by omega
      have hb' : 35 ≤ shift + 7 + 7 * (f - 1) := by omega
      cases cur with
      | nil =>
        cases hnext : M.next s with
        | none => simp
        | some bs =>
          obtain ⟨b, s'⟩ := bs
          cases b with
          | nil => exact absurd rfl (hNE s [] s' hnext)
          | cons c rest =>
            simp only []
            by_cases hc : c &&& 128 = 0
            · rw [if_pos hc]
              cases M.backUp s' rest.length with
              | none => simp
              | some s'' => simp
            · rw [if_neg hc]
              exact ih (shift + 7) _ rest s' hf1 hb'
      | cons c rest =>
        simp only []
        by_cases hc : c &&& 128 = 0
        · rw [if_pos hc]
          cases M.backUp s rest.length with
          | none => simp
          | some s'' => simp
        · rw [if_neg hc]
          exact ih (shift + 7) _ rest s hf1 hb'

/-- The `ReadVarint32` loop's result is fuel-independent once it does not
run out of fuel. -/
theorem rv32Go_mono {σ : Type} (M : StreamModel σ) :
    ∀ (f : Nat) (shift acc : Nat) (cur : List Nat) (s : σ),
      readVarint32Go M f shift acc cur s ≠ .diverge →
      ∀ g, f ≤ g →
      readVarint32Go M g shift acc cur s = readVarint32Go M f shift acc cur s := by
  intro f
  induction f with
  | zero =>
    intro shift acc cur s hnd g _
    exact absurd rfl hnd
  | succ f ih =>
    intro shift acc cur s hnd g hfg
    obtain ⟨g', rfl⟩ : ∃ g', g = g' + 1 := ⟨g - 1, by omega⟩
    have hfg' : f ≤ g' := by omega
    simp only [readVarint32Go] at hnd ⊢
    by_cases h35 : 35 ≤ shift
    · simp only [if_pos h35]
    · simp only [if_neg h35] at hnd ⊢
      cases cur with
      | nil =>
        cases hnext : M.next s with
        | none => simp [hnext]
        | some bs =>
          obtain ⟨b, s'⟩ := bs
          cases b with
          | nil =>
            simp only [hnext] at hnd ⊢
            exact ih shift acc [] s' hnd g' hfg'
          | cons c rest =>
            simp only [hnext] at hnd ⊢
            by_cases hc : c &&& 128 = 0
            · simp only [if_pos hc]
            · simp only [if_neg hc] at hnd ⊢
              exact ih (shift + 7) _ rest s' hnd g' hfg'
      | cons c rest =>
        by_cases hc : c &&& 128 = 0
        · simp only [if_pos hc]
        · simp only [if_neg hc] at hnd ⊢
          exact ih (shift + 7) _ rest s hnd g' hfg'

/-- Under the no-empty-block precondition, the `ReadVarint64` loop never
exhausts 11 iterations' worth of fuel. -/
theorem rv64Go_ne_diverge {σ : Type} (M : StreamModel σ) (hNE : NoEmptyBlocks M) :
    ∀ (fuel : Nat) (shift acc : Nat) (cur : List Nat) (s : σ),
      1 ≤ fuel → 70 ≤ shift + 7 * (fuel - 1) →
      readVarint64Go M fuel shift acc cur s ≠ .diverge := by
  intro fuel
  induction fuel with
  | zero => intro shift acc cur s h1 _; omega
  | succ f ih =>
    intro shift acc cur s _ hbound
    simp only [readVarint64Go]
    by_cases h70 : 70 ≤ shift
    · rw [if_pos h70]
      simp
    · rw [if_neg h70]
      have hf1 : 1 ≤ f := by omega
      have hb' : 70 ≤ shift + 7 + 7 * (f - 1) := by omega
      cases cur with
      | nil =>
        cases hnext : M.next s with
        | none => simp
        | some bs =>
          obtain ⟨b, s'⟩ := bs
          cases b with
          | nil => exact absurd rfl (hNE s [] s' hnext)
          | cons c rest =>
            simp only []
            by_cases hc : c &&& 128 = 0
            · rw [if_pos hc]
              cases M.backUp s' rest.length with
              | none => simp
              | some s'' => simp
            · rw [if_neg hc]
              exact ih (shift + 7) _ rest s' hf1 hb'
      | cons c rest =>
        simp only []
        by_cases hc : c &&& 128 = 0
        · rw [if_pos hc]
          cases M.backUp s rest.length with
          | none => simp
          | some s'' => simp
        · rw [if_neg hc]
          exact ih (shift + 7) _ rest s hf1 hb'

/-- The `ReadVarint64` loop's result is fuel-independent once it does not
run out of fuel. -/
theorem rv64Go_mono {σ : Type} (M : StreamModel σ) :
    ∀ (f : Nat) (shift acc : Nat) (cur : List Nat) (s : σ),
      readVarint64Go M f shift acc cur s ≠ .diverge →
      ∀ g, f ≤ g →
      readVarint64Go M g shift acc cur s = readVarint64Go M f shift acc cur s := by
  intro f
  induction f with
  | zero =>
    intro shift acc cur s hnd g _
    exact absurd rfl hnd
  | succ f ih =>
    intro shift acc cur s hnd g hfg
    obtain ⟨g', rfl⟩ : ∃ g', g = g' + 1 := ⟨g - 1, by omega⟩
    have hfg' : f ≤ g' := by omega
    simp only [readVarint64Go] at hnd ⊢
    by_cases h70 : 70 ≤ shift
    · simp only [if_pos h70]
    · simp only [if_neg h70] at hnd ⊢
      cases cur with
      | nil =>
        cases hnext : M.next s with
        | none => simp [hnext]
        | some bs =>
          obtain ⟨b, s'⟩ := bs
          cases b with
          | nil =>
            simp only [hnext] at hnd ⊢
            exact ih shift acc [] s' hnd g' hfg'
          | cons c rest =>
            simp only [hnext] at hnd ⊢
            by_cases hc : c &&& 128 = 0
            · simp only [if_pos hc]
            · simp only [if_neg hc] at hnd ⊢
              exact ih (shift + 7) _ rest s' hnd g' hfg'
      | cons c rest =>
        by_cases hc : c &&& 128 = 0
        · simp only [if_pos hc]
        · simp only [if_neg hc] at hnd ⊢
          exact ih (shift + 7) _ rest s hnd g' hfg'

/-- Five continuation bytes in a row drive the 32-bit width guard to 35 and
make the decode fail. -/
theorem rv32_overflow_fail (a b c d e : Nat) (rest : List Nat)
    (ha : 128 ≤ a) (ha' : a < 256) (hb : 128 ≤ b) (hb' : b < 256)
    (hc : 128 ≤ c) (hc' : c < 256) (hd : 128 ≤ d) (hd' : d < 256)
    (he : 128 ≤ e) (he' : e < 256) :
    readVarint32 bisModel 6 (BIS.init (a :: b :: c :: d :: e :: rest)) = .fail := by
  have h1 := and_0x80_of_ge a ha ha'
  have h2 := and_0x80_of_ge b hb hb'
  have h3 := and_0x80_of_ge c hc hc'
  have h4 := and_0x80_of_ge d hd hd'
  have h5 := and_0x80_of_ge e he he'
  simp [readVarint32, readVarint32Go, bisModel, bisNext, BIS.init,
    h1, h2, h3, h4, h5]

/-- Ten continuation bytes in a row drive the 64-bit width guard to 70 and
make the decode fail. -/
theorem rv64_overflow_fail (a b c d e f g h i j : Nat) (rest : List Nat)
    (hall : ∀ x ∈ [a, b, c, d, e, f, g, h, i, j], 128 ≤ x ∧ x < 256) :
    readVarint64 bisModel 11
      (BIS.init (a :: b :: c :: d :: e :: f :: g :: h :: i :: j :: rest)) = .fail := by
  have h1 := and_0x80_of_ge a (hall a (by simp)).1 (hall a (by simp)).2
  have h2 := and_0x80_of_ge b (hall b (by simp)).1 (hall b (by simp)).2
  have h3 := and_0x80_of_ge c (hall c (by simp)).1 (hall c (by simp)).2
  have h4 := and_0x80_of_ge d (hall d (by simp)).1 (hall d (by simp)).2
  have h5 := and_0x80_of_ge e (hall e (by simp)).1 (hall e (by simp)).2
  have h6 := and_0x80_of_ge f (hall f (by simp)).1 (hall f (by simp)).2
  have h7 := and_0x80_of_ge g (hall g (by simp)).1 (hall g (by simp)).2
  have h8 := and_0x80_of_ge h (hall h (by simp)).1 (hall h (by simp)).2
  have h9 := and_0x80_of_ge i (hall i (by simp)).1 (hall i (by simp)).2
  have h10 := and_0x80_of_ge j (hall j (by simp)).1 (hall j (by simp)).2
  simp [readVarint64, readVarint64Go, bisModel, bisNext, BIS.init,
    h1, h2, h3, h4, h5, h6, h7, h8, h9, h10]

/-- Claim C5: under the precondition that the backend never returns
`ok = true` with a zero-length block, `ReadVarint32` / `ReadVarint64`
terminate on every input within 6 (resp. 11) loop iterations — i.e. after
examining at most 5 (resp. 10) bytes — and giving the loop any more fuel
never changes the result; an input whose continuation bits never clear
within the width guard (35 bits / 70 bits) makes the decode return failure
instead of looping or wrapping. -/
theorem C5_varint_guarded_termination :
    (∀ (σ : Type) (M : StreamModel σ), NoEmptyBlocks M → ∀ s : σ,
      (readVarint32 M 6 s ≠ .diverge ∧
       ∀ f, 6 ≤ f → readVarint32 M f s = readVarint32 M 6 s) ∧
      (readVarint64 M 11 s ≠ .diverge ∧
       ∀ f, 11 ≤ f → readVarint64 M f s = readVarint64 M 11 s)) ∧
    (∀ (bs rest : List Nat), bs.length = 5 → (∀ x ∈ bs, 128 ≤ x ∧ x < 256) →
      ∀ f, 6 ≤ f → readVarint32 bisModel f (BIS.init (bs ++ rest)) = .fail) ∧
    (∀ (bs rest : List Nat), bs.length = 10 → (∀ x ∈ bs, 128 ≤ x ∧ x < 256) →
      ∀ f, 11 ≤ f → readVarint64 bisModel f (BIS.init (bs ++ rest)) = .fail) := by
  refine ⟨?_, ?_, ?_⟩
  · intro σ M hNE s
    have h32 : readVarint32Go M 6 0 0 [] s ≠ .diverge :=
      rv32Go_ne_diverge M hNE 6 0 0 [] s (by norm_num) (by norm_num)
    have h64 : readVarint64Go M 11 0 0 [] s ≠ .diverge :=
      rv64Go_ne_diverge M hNE 11 0 0 [] s (by norm_num) (by norm_num)
    exact ⟨⟨h32, fun f hf => rv32Go_mono M 6 0 0 [] s h32 f hf⟩,
           ⟨h64, fun f hf => rv64Go_mono M 11 0 0 [] s h64 f hf⟩⟩
  · intro bs rest hlen hbytes f hf
    rcases bs with _ | ⟨a, _ | ⟨b, _ | ⟨c, _ | ⟨d, _ | ⟨e, tail⟩⟩⟩⟩⟩ <;>
      simp only [List.length_cons, List.length_nil] at hlen
    · omega
    · omega
    · omega
    · omega
    · omega
    · have htail : tail = [] := List.eq_nil_of_length_eq_zero (by omega)
      subst htail
      have hcore := rv32_overflow_fail a b c d e rest
        (hbytes a (by simp)).1 (hbytes a (by simp)).2
        (hbytes b (by simp)).1 (hbytes b (by simp)).2
        (hbytes c (by simp)).1 (hbytes c (by simp)).2
        (hbytes d (by simp)).1 (hbytes d (by simp)).2
        (hbytes e (by simp)).1 (hbytes e (by simp)).2
      have hnd : readVarint32 bisModel 6
          (BIS.init (a :: b :: c :: d :: e :: rest)) ≠ .diverge := by
        rw [hcore]
        simp
      have := rv32Go_mono bisModel 6 0 0 []
        (BIS.init (a :: b :: c :: d :: e :: rest)) hnd f hf
      simp only [readVarint32] at hcore hnd ⊢
      simp only [List.cons_append, List.nil_append]
      rw [this, hcore]
  · intro bs rest hlen hbytes f hf
    rcases bs with _ | ⟨a, _ | ⟨b, _ | ⟨c, _ | ⟨d, _ | ⟨e, _ | ⟨f6, _ | ⟨g, _ | ⟨h, _ | ⟨i, _ | ⟨j, tail⟩⟩⟩⟩⟩⟩⟩⟩⟩⟩ <;>
      simp only [List.length_cons, List.length_nil] at hlen
    · omega
    · omega
    · omega
    · omega
    · omega
    · omega
    · omega
    · omega
    · omega
    · omega
    · have htail : tail = [] := List.eq_nil_of_length_eq_zero (by omega)
      subst htail
      have hcore := rv64_overflow_fail a b c d e f6 g h i j rest
        (by intro x hx; exact hbytes x (by simpa using hx))
      have hnd : readVarint64 bisModel 11
          (BIS.init (a :: b :: c :: d :: e :: f6 :: g :: h :: i :: j :: rest)) ≠
            .diverge := by
        rw [hcore]
        simp
      have := rv64Go_mono bisModel 11 0 0 []
        (BIS.init (a :: b :: c :: d :: e :: f6 :: g :: h :: i :: j :: rest)) hnd f hf
      simp only [readVarint64] at hcore hnd ⊢
      simp only [List.cons_append, List.nil_append]
      rw [this, hcore]

/-- Claim C5, instantiated on `BufferInputStream`: termination and
fuel-independence on the buffer `[0x80]`, and width-guard rejection of five
(resp. ten) continuation bytes. -/
theorem C5_varint_guarded_termination_witness :
    readVarint32 bisModel 6 (BIS.init [128]) ≠ .diverge ∧
    readVarint32 bisModel 9 (BIS.init [128]) =
      readVarint32 bisModel 6 (BIS.init [128]) ∧
    readVarint32 bisModel 6 (BIS.init ([129, 130, 131, 132, 133] ++ [])) = .fail ∧
    readVarint64 bisModel 11
      (BIS.init ([129, 129, 129, 129, 129, 129, 129, 129, 129, 129] ++ [7])) =
        .fail :=
  ⟨(C5_varint_guarded_termination.1 BIS bisModel bisNoEmptyBlocks
      (BIS.init [128])).1.1,
   (C5_varint_guarded_termination.1 BIS bisModel bisNoEmptyBlocks
      (BIS.init [128])).1.2 9 (by norm_num),
   C5_varint_guarded_termination.2.1 [129, 130, 131, 132, 133] [] (by decide)
      (by decide) 6 (by norm_num),
   C5_varint_guarded_termination.2.2 [129, 129, 129, 129, 129, 129, 129, 129, 129, 129]
      [7] (by decide) (by decide) 11 (by norm_num)⟩

/-- Dropping seven low bits lowers `log2` by exactly 7 (for values with at
least 8 bits). -/
theorem log2_div128 (n : Nat) (hn : 128 ≤ n) :
    Nat.log2 (n >>> 7) = Nat.log2 n - 7 := by
  have hne : n ≠ 0 := by omega
  have hL7 : 7 ≤ Nat.log2 n := (Nat.le_log2 hne).mpr (by norm_num; omega)
  have hlow : 2 ^ Nat.log2 n ≤ n := Nat.log2_self_le hne
  have hhigh : n < 2 ^ (Nat.log2 n + 1) := Nat.lt_log2_self
  have hdne : n >>> 7 ≠ 0 := by
    simp only [Nat.shiftRight_eq_div_pow]
    have h7 : (2 : Nat) ^ 7 = 128 := by norm_num
    rw [h7]
    omega
  apply Nat.le_antisymm
  · have : n >>> 7 < 2 ^ (Nat.log2 n - 7 + 1) := by
      simp only [Nat.shiftRight_eq_div_pow]
      apply Nat.div_lt_of_lt_mul
      calc n < 2 ^ (Nat.log2 n + 1) := hhigh
        _ = 2 ^ 7 * 2 ^ (Nat.log2 n - 7 + 1) := by
          rw [← pow_add]
          congr 1
          omega
    have := (Nat.log2_lt hdne).mpr this
    omega
  · apply (Nat.le_log2 hdne).mpr
    simp only [Nat.shiftRight_eq_div_pow]
    apply (Nat.le_div_iff_mul_le (by norm_num : 0 < 2 ^ 7)).mpr
    calc 2 ^ (Nat.log2 n - 7) * 2 ^ 7 = 2 ^ Nat.log2 n := by
          rw [← pow_add]
          congr 1
          omega
      _ ≤ n := hlow

/-- The byte count of the 32-bit varint writer is exactly
`ceil(max(1, bitlength n) / 7)`. -/
theorem encodeVarint32_length (n : Nat) :
    (encodeVarint32 n).length = (max 1 (bitLen n) + 6) / 7 := by
  induction n using Nat.strong_induction_on with
  | _ n ih =>
    by_cases h : n < 128
    · rw [encodeVarint32, dif_pos h]
      simp only [List.length_cons, List.length_nil, bitLen]
      split
      · norm_num
      · rename_i hne
        have : Nat.log2 n < 7 := (Nat.log2_lt hne).mpr (by norm_num; omega)
        omega
    · rw [encodeVarint32, dif_neg h]
      simp only [List.length_cons]
      have hrec : n >>> 7 < n := by
        simp only [Nat.shiftRight_eq_div_pow]
        exact Nat.div_lt_self (by omega) (by norm_num)
      rw [ih (n >>> 7) hrec]
      have hlog := log2_div128 n (by omega)
      have hL7 : 7 ≤ Nat.log2 n := (Nat.le_log2 (by omega)).mpr (by norm_num; omega)
      have hdne : n >>> 7 ≠ 0 := by
        simp only [Nat.shiftRight_eq_div_pow]
        have h7 : (2 : Nat) ^ 7 = 128 := by norm_num
        rw [h7]
        omega
      simp only [bitLen, hdne, if_false, hlog]
      split
      · omega
      · omega

/-- The byte count of the 64-bit varint writer is exactly
`ceil(max(1, bitlength n) / 7)`. -/
theorem encodeVarint64_length (n : Nat) :
    (encodeVarint64 n).length = (max 1 (bitLen n) + 6) / 7 := by
  induction n using Nat.strong_induction_on with
  | _ n ih =>
    by_cases h : n < 128
    · rw [encodeVarint64, dif_pos h]
      simp only [List.length_cons, List.length_nil, bitLen]
      split
      · norm_num
      · rename_i hne
        have : Nat.log2 n < 7 := (Nat.log2_lt hne).mpr (by norm_num; omega)
        omega
    · rw [encodeVarint64, dif_neg h]
      simp only [List.length_cons]
      have hrec : n >>> 7 < n := by
        simp only [Nat.shiftRight_eq_div_pow]
        exact Nat.div_lt_self (by omega) (by norm_num)
      rw [ih (n >>> 7) hrec]
      have hlog := log2_div128 n (by omega)
      have hL7 : 7 ≤ Nat.log2 n := (Nat.le_log2 (by omega)).mpr (by norm_num; omega)
      have hdne : n >>> 7 ≠ 0 := by
        simp only [Nat.shiftRight_eq_div_pow]
        have h7 : (2 : Nat) ^ 7 = 128 := by norm_num
        rw [h7]
        omega
      simp only [bitLen, hdne, if_false, hlog]
      split
      · omega
      · omega

/-- Claim C6: the varint encoding produced by `WriteVarint32` /
`WriteVarint64` is exactly `ceil(max(1, bitlength(n)) / 7)` bytes long —
zero encodes as the single byte `0x00`, 32-bit values take at most 5 bytes,
64-bit values at most 10 — and encoding 300 produces exactly the bytes
`AC 02`, whose decode yields 300. -/
theorem C6_varint_minimal_length :
    (∀ n, n < 2 ^ 32 →
      (encodeVarint32 n).length = (max 1 (bitLen n) + 6) / 7 ∧
      (encodeVarint32 n).length ≤ 5) ∧
    (∀ n, n < 2 ^ 64 →
      (encodeVarint64 n).length = (max 1 (bitLen n) + 6) / 7 ∧
      (encodeVarint64 n).length ≤ 10) ∧
    encodeVarint32 0 = [0] ∧
    writeVarint32BOS (BOS.init [0, 0]) 300 = some ⟨[172, 2], 2, 2⟩ ∧
    readVarint32 bisModel 6 (BIS.init [172, 2]) = .ok (300, ⟨[172, 2], 2, 2⟩) := by
  have h300 : encodeVarint32 300 = [172, 2] := by
    rw [encodeVarint32]
    norm_num
    constructor
    · decide
    · rw [show (300 : Nat) >>> 7 = 2 by decide]
      rw [encodeVarint32]
      norm_num
  refine ⟨?_, ?_, ?_, ?_, by decide⟩
  · intro n hn
    refine ⟨encodeVarint32_length n, ?_⟩
    rw [encodeVarint32_length n]
    simp only [bitLen]
    split
    · norm_num
    · rename_i hne
      have : Nat.log2 n < 32 := (Nat.log2_lt hne).mpr hn
      omega
  · intro n hn
    refine ⟨encodeVarint64_length n, ?_⟩
    rw [encodeVarint64_length n]
    simp only [bitLen]
    split
    · norm_num
    · rename_i hne
      have : Nat.log2 n < 64 := (Nat.log2_lt hne).mpr hn
      omega
  · rw [encodeVarint32]
    norm_num
  · simp only [writeVarint32BOS, h300]
    decide

/-- Claim C6, instantiated: the encoding of 300 is two bytes long
(`bitlength(300) = 9`, `ceil(9/7) = 2`), and a 41-bit value takes at most
ten bytes in the 64-bit writer. -/
theorem C6_varint_minimal_length_witness :
    (encodeVarint32 300).length = (max 1 (bitLen 300) + 6) / 7 ∧
    (encodeVarint64 1099511627776).length ≤ 10 :=
  ⟨(C6_varint_minimal_length.1 300 (by norm_num)).1,
   (C6_varint_minimal_length.2.1 1099511627776 (by norm_num)).2⟩

/-- One `out_val |= (uint32_t)(byte & 0x7F) << shift` step, rephrased as
addition: the 7 data bits land above the bits already accumulated, truncated
to 32 bits. -/
theorem lor_varint_step (acc c s : Nat) (hacc : acc < 2 ^ s) (hs : s ≤ 32) :
    acc ||| ((c &&& 127) <<< s) % 2 ^ 32 = acc + c % 128 * 2 ^ s % 2 ^ 32 := by
  rw [and_0x7F, Nat.shiftLeft_eq]
  have hsplit : c % 128 * 2 ^ s % 2 ^ 32 = 2 ^ s * (c % 128 % 2 ^ (32 - s)) := by
    have h32 : (2 : Nat) ^ 32 = 2 ^ s * 2 ^ (32 - s) := by
      rw [← pow_add]
      congr 1
      omega
    rw [h32, Nat.mul_comm (c % 128) (2 ^ s)]
    exact Nat.mul_mod_mul_left _ _ _
  rw [hsplit, lor_two_pow_mul acc _ hacc]

/-- Claim C10 (general part): any terminated varint of at most 5 bytes is
accepted by `ReadVarint32`, yielding the accumulated base-128 value reduced
modulo `2 ^ 32`. -/
theorem C10_varint_accepts_non_canonical_general :
    ∀ (bs : List Nat), bs ≠ [] → bs.length ≤ 5 →
      (∀ x ∈ bs.dropLast, 128 ≤ x ∧ x < 256) →
      (∀ lb, bs.getLast? = some lb → lb < 128) →
      readVarint32 bisModel 6 (BIS.init bs) =
        .ok (varintValue bs % 2 ^ 32, ⟨bs, bs.length, bs.length⟩) := by
  intro bs hne hlen hinit hlast
  rcases bs with _ | ⟨a, _ | ⟨b, _ | ⟨c, _ | ⟨d, _ | ⟨e, tail⟩⟩⟩⟩⟩
  · exact absurd rfl hne
  · have hla := hlast a (by simp)
    have ha8 := and_0x80_of_lt a hla
    simp [readVarint32, readVarint32Go, bisModel, bisNext, bisBackUp, BIS.init,
      ha8, varintValue]
    rw [and_0x7F a]
  · have hxa := hinit a (by simp)
    have hlb := hlast b (by simp)
    have ha8 := and_0x80_of_ge a hxa.1 hxa.2
    have hb8 := and_0x80_of_lt b hlb
    simp [readVarint32, readVarint32Go, bisModel, bisNext, bisBackUp, BIS.init,
      ha8, hb8, varintValue]
    rw [show (4294967296 : Nat) = 2 ^ 32 by norm_num] at *
    rw [and_0x7F a]
    rw [lor_varint_step _ b 7 (by omega) (by omega)]
    omega
  · have hxa := hinit a (by simp)
    have hxb := hinit b (by simp)
    have hlc := hlast c (by simp)
    have ha8 := and_0x80_of_ge a hxa.1 hxa.2
    have hb8 := and_0x80_of_ge b hxb.1 hxb.2
    have hc8 := and_0x80_of_lt c hlc
    simp [readVarint32, readVarint32Go, bisModel, bisNext, bisBackUp, BIS.init,
      ha8, hb8, hc8, varintValue]
    rw [show (4294967296 : Nat) = 2 ^ 32 by norm_num] at *
    rw [and_0x7F a]
    rw [lor_varint_step _ b 7 (by omega) (by omega)]
    rw [lor_varint_step _ c 14 (by omega) (by omega)]
    omega
  · have hxa := hinit a (by simp)
    have hxb := hinit b (by simp)
    have hxc := hinit c (by simp)
    have hld := hlast d (by simp)
    have ha8 := and_0x80_of_ge a hxa.1 hxa.2
    have hb8 := and_0x80_of_ge b hxb.1 hxb.2
    have hc8 := and_0x80_of_ge c hxc.1 hxc.2
    have hd8 := and_0x80_of_lt d hld
    simp [readVarint32, readVarint32Go, bisModel, bisNext, bisBackUp, BIS.init,
      ha8, hb8, hc8, hd8, varintValue]
    rw [show (4294967296 : Nat) = 2 ^ 32 by norm_num] at *
    rw [and_0x7F a]
    rw [lor_varint_step _ b 7 (by omega) (by omega)]
    rw [lor_varint_step _ c 14 (by omega) (by omega)]
    rw [lor_varint_step _ d 21 (by omega) (by omega)]
    omega
  · have htail : tail = [] := by
      simp only [List.length_cons] at hlen
      exact List.eq_nil_of_length_eq_zero (by omega)
    subst htail
    have hxa := hinit a (by simp)
    have hxb := hinit b (by simp)
    have hxc := hinit c (by simp)
    have hxd := hinit d (by simp)
    have hle := hlast e (by simp)
    have ha8 := and_0x80_of_ge a hxa.1 hxa.2
    have hb8 := and_0x80_of_ge b hxb.1 hxb.2
    have hc8 := and_0x80_of_ge c hxc.1 hxc.2
    have hd8 := and_0x80_of_ge d hxd.1 hxd.2
    have he8 := and_0x80_of_lt e hle
    simp [readVarint32, readVarint32Go, bisModel, bisNext, bisBackUp, BIS.init,
      ha8, hb8, hc8, hd8, he8, varintValue]
    rw [show (4294967296 : Nat) = 2 ^ 32 by norm_num] at *
    rw [and_0x7F a]
    rw [lor_varint_step _ b 7 (by omega) (by omega)]
    rw [lor_varint_step _ c 14 (by omega) (by omega)]
    rw [lor_varint_step _ d 21 (by omega) (by omega)]
    rw [lor_varint_step _ e 28 (by omega) (by omega)]
    omega

/-- Claim C10: `ReadVarint32` accepts non-canonical terminating encodings —
every byte sequence of at most 5 bytes whose final byte clears the
continuation bit decodes successfully to the accumulated value with data
bits at positions 32 and above discarded (reduction modulo `2 ^ 32`); in
particular the overlong encoding `80 00` decodes to 0 and
`FF FF FF FF 7F` decodes to `0xFFFFFFFF`. -/
theorem C10_varint_accepts_non_canonical :
    (∀ (bs : List Nat), bs ≠ [] → bs.length ≤ 5 →
      (∀ x ∈ bs.dropLast, 128 ≤ x ∧ x < 256) →
      (∀ lb, bs.getLast? = some lb → lb < 128) →
      readVarint32 bisModel 6 (BIS.init bs) =
        .ok (varintValue bs % 2 ^ 32, ⟨bs, bs.length, bs.length⟩)) ∧
    readVarint32 bisModel 6 (BIS.init [128, 0]) = .ok (0, ⟨[128, 0], 2, 2⟩) ∧
    readVarint32 bisModel 6 (BIS.init [255, 255, 255, 255, 127]) =
      .ok (4294967295, ⟨[255, 255, 255, 255, 127], 5, 5⟩) :=
  ⟨C10_varint_accepts_non_canonical_general, by decide, by decide⟩

/-- Claim C10, instantiated: the non-minimal two-byte encoding of 0 and a
width-exceeding terminated five-byte sequence, decoded through the general
statement. -/
theorem C10_varint_accepts_non_canonical_witness :
    readVarint32 bisModel 6 (BIS.init [129, 1]) =
      .ok (varintValue [129, 1] % 2 ^ 32, ⟨[129, 1], 2, 2⟩) ∧
    readVarint32 bisModel 6 (BIS.init [255, 255, 255, 255, 127]) =
      .ok (varintValue [255, 255, 255, 255, 127] % 2 ^ 32,
        ⟨[255, 255, 255, 255, 127], 5, 5⟩) :=
  ⟨C10_varint_accepts_non_canonical.1 [129, 1] (by decide) (by decide)
      (by decide) (by decide),
   C10_varint_accepts_non_canonical.1 [255, 255, 255, 255, 127] (by decide)
      (by decide) (by decide) (by decide)⟩
